import Mathlib

/-!
Shallow embedding of the VG5000 cassette-tape bitstream encoder from
src/examples/sokol/vg5000.c (functions tape_short_impulse, tape_long_impulse,
tape_end_of_byte, k7_to_tape_buffer), together with theorems settling the
specification claims about it.

Modelling conventions:
* A tape buffer is modelled as the list of 16-bit duration values written so
  far, in write order; the C variable output_position is the length of that
  list, and the write of a value at index output_position is an append.
  All writes in the C code are strictly sequential (each write happens at
  output_position, which is then incremented), so this list model captures
  the exact sequence and order of written values.
* Machine integers are modelled as Nat.  All duration values (833, 1666,
  17400) fit in uint16_t, and for every input considered in the theorems the
  value counts stay far below 2^32, so no wrap-around is modelled.
* chips_range_t is a pointer+size pair; the input range is modelled directly
  as the list of its bytes (its size field is the list length), the output
  range as a structure holding the written values and the reported byte size.
-/

namespace VG5000

set_option maxRecDepth 16384

/-- Model of chips_range_t for the output tape buffer: ptr is the sequence of
duration values written, size the byte count stored in the size field. -/
structure chips_range_t where
  ptr : List Nat
  size : Nat
  deriving DecidableEq

/-- Embedding of tape_short_impulse (vg5000.c lines 259-263): writes the two
duration values 833, 833 and returns 2 (here: the length of the list). -/
def tape_short_impulse : List Nat := [833, 833]

/-- Embedding of tape_long_impulse (vg5000.c lines 265-269): writes the two
duration values 1666, 1666 and returns 2 (here: the length of the list). -/
def tape_long_impulse : List Nat := [1666, 1666]

/-- Embedding of tape_end_of_byte (vg5000.c lines 271-279): a loop of four
short impulses followed by one long impulse, returning the number of values
written (here: the length of the list). -/
def tape_end_of_byte : List Nat :=
  (List.range 4).foldl (fun output _ => output ++ tape_short_impulse) [] ++ tape_long_impulse

/-- Embedding of the inner bit loop of k7_to_tape_buffer (vg5000.c lines
313-321 and 344-352): for each of j iterations, if (byte & 0x1) emit two
short impulses, else one long impulse, then byte >>= 1.  The first argument
is the number of remaining loop iterations (8 at the call sites). -/
def tape_byte_pulses : Nat → Nat → List Nat
  | 0, _ => []
  | j + 1, byte =>
    (if byte &&& 1 ≠ 0 then tape_short_impulse ++ tape_short_impulse else tape_long_impulse)
      ++ tape_byte_pulses j (byte >>> 1)

/-- Embedding of the inline end-of-byte code path of the payload loop of
k7_to_tape_buffer (vg5000.c lines 356-359): a loop of four short impulses
followed by one long impulse, written inline rather than through the
tape_end_of_byte helper. -/
def tape_payload_end_of_byte : List Nat :=
  (List.range 4).foldl (fun output _ => output ++ tape_short_impulse) [] ++ tape_long_impulse

/-- Embedding of the allocation size computed at vg5000.c line 292:
tape_buffer->size = (k7_data.size + total_synchro) * 40 with
total_synchro = 30000.  This value, in bytes, is passed to malloc at line
293, so the allocated buffer holds k7_alloc_size / 2 uint16_t elements. -/
def k7_alloc_size (k7_size : Nat) : Nat := (k7_size + 30000) * 40

/-- Embedding of the sequence of duration values written by the body of
k7_to_tape_buffer (vg5000.c lines 295-364), line by line:
the leading 17400 (line 299), 30000 short impulses (lines 302-304), one
tape_end_of_byte (line 305), the loop over the first 32 input bytes with a
tape_end_of_byte after each (lines 311-324), 7200 short impulses (lines
333-335), one tape_end_of_byte (line 336), and the loop over the remaining
bytes with the inline end-of-byte after each (lines 342-360). -/
def k7_tape_write (k7_data : List Nat) : List Nat :=
  let output := [17400]
  let output := (List.range 30000).foldl (fun output _ => output ++ tape_short_impulse) output
  let output := output ++ tape_end_of_byte
  let output := (k7_data.take 32).foldl
    (fun output byte => output ++ tape_byte_pulses 8 byte ++ tape_end_of_byte) output
  let output := (List.range 7200).foldl (fun output _ => output ++ tape_short_impulse) output
  let output := output ++ tape_end_of_byte
  let output := (k7_data.drop 32).foldl
    (fun output byte => output ++ tape_byte_pulses 8 byte ++ tape_payload_end_of_byte) output
  output

/-- Embedding of k7_to_tape_buffer (vg5000.c lines 281-370).  The sys
argument is only touched by the initial assert null check and never read
afterwards; it is kept as a parameter of arbitrary type.  If the input is
shorter than 32 bytes the function returns false with the caller's output
range untouched (line 284-286); otherwise it writes the pulse train and
stores output_position * 2 in the size field (line 367), returning true. -/
def k7_to_tape_buffer {α : Type} (sys : α) (k7_data : List Nat)
    (tape_buffer : chips_range_t) : Bool × chips_range_t :=
  if k7_data.length < 32 then (false, tape_buffer)
  else
    let output := k7_tape_write k7_data
    (true, { ptr := output, size := output.length * 2 })

/-- Modelled from the spec (section 4.2 byte serialization, read as the
claims state it): the 8 bits of a byte, least-significant bit first, a 1 bit
contributing two short impulses (four values 833) and a 0 bit one long
impulse (two values 1666). -/
def spec_byte_serialization (b : Nat) : List Nat :=
  (List.range 8).flatMap fun j => if b.testBit j then [833, 833, 833, 833] else [1666, 1666]

/-- Modelled from the spec (section 4.2 end-of-byte marker): four short
impulses followed by one long impulse, ten duration values in total. -/
def spec_end_of_byte : List Nat :=
  (List.replicate 4 [833, 833]).flatten ++ [1666, 1666]

/-- Modelled from the spec (section 4.3 and claim C1): the pulse train the
encoder is claimed to produce, as one concatenation: leading 17400, 30000
short impulses, an end-of-byte marker, the first 32 bytes each serialized and
followed by an end-of-byte marker, 7200 short impulses, an end-of-byte
marker, and the remaining bytes each serialized and followed by an
end-of-byte marker. -/
def spec_pulse_train (data : List Nat) : List Nat :=
  [17400]
    ++ (List.replicate 30000 [833, 833]).flatten
    ++ spec_end_of_byte
    ++ ((data.take 32).map fun b => spec_byte_serialization b ++ spec_end_of_byte).flatten
    ++ (List.replicate 7200 [833, 833]).flatten
    ++ spec_end_of_byte
    ++ ((data.drop 32).map fun b => spec_byte_serialization b ++ spec_end_of_byte).flatten

/-- Numeric value obtained by reading back k bits least-significant first
from the same bit sequence the encoder's bit loop consumes: bit j of the
result is bit j of the input byte. -/
def tape_bits_val : Nat → Nat → Nat
  | 0, _ => 0
  | k + 1, byte => (if byte &&& 1 ≠ 0 then 1 else 0) + 2 * tape_bits_val k (byte >>> 1)

/-- Generic bit-sequence reader: reads k bits from the head of a pulse
stream with a given single-bit decoder, least-significant bit first, and
returns the decoded value together with the unconsumed stream. -/
def decode_bits_with (bit_dec : List Nat → Option (Nat × List Nat)) :
    Nat → List Nat → Option (Nat × List Nat)
  | 0, s => some (0, s)
  | k + 1, s =>
    match bit_dec s with
    | some (b, s1) =>
      match decode_bits_with bit_dec k s1 with
      | some (v, s2) => some (b + 2 * v, s2)
      | none => none
    | none => none

/-- Recognizes an end-of-byte marker (eight values 833 then two values 1666)
at the head of a pulse stream And returns the rest of the stream. -/
def skip_end_marker : List Nat → Option (List Nat)
  | 833 :: 833 :: 833 :: 833 :: 833 :: 833 :: 833 :: 833 :: 1666 :: 1666 :: rest => some rest
  | _ => none

/-- Generic framed-byte reader: reads n framed bytes, each as 8 bits with
the given single-bit decoder followed by one end-of-byte marker, and returns
the decoded bytes together with the unconsumed stream. -/
def decode_framed_with (bit_dec : List Nat → Option (Nat × List Nat)) :
    Nat → List Nat → Option (List Nat × List Nat)
  | 0, s => some ([], s)
  | n + 1, s =>
    match decode_bits_with bit_dec 8 s with
    | some (v, s1) =>
      match skip_end_marker s1 with
      | some s2 =>
        match decode_framed_with bit_dec n s2 with
        | some (bs, s3) => some (v :: bs, s3)
        | none => none
      | none => none
    | none => none

/-- Modelled from the spec (sections 4.2 and 8, bit-level round-trip): a run
of four 833 values (two short impulses, the full encoding of a 1 bit)
decodes to bit 1 and a pair of 1666 values (one long impulse) to bit 0. -/
def decode_bit : List Nat → Option (Nat × List Nat)
  | 833 :: 833 :: 833 :: 833 :: rest => some (1, rest)
  | 1666 :: 1666 :: rest => some (0, rest)
  | _ => none

/-- Modelled from the literal words of claim C7: a pair of 833 values taken
as bit 1 and a pair of 1666 values taken as bit 0. -/
def claim_pair_decode_bit : List Nat → Option (Nat × List Nat)
  | 833 :: 833 :: rest => some (1, rest)
  | 1666 :: 1666 :: rest => some (0, rest)
  | _ => none

/-- Header decoder per the spec reading of section 4.2: framed bytes with
the four-833-values-per-1-bit decoder. -/
def decode_framed : Nat → List Nat → Option (List Nat × List Nat) :=
  decode_framed_with decode_bit

/-- Header decoder per the literal words of claim C7: framed bytes with the
pair-of-833-values-per-1-bit decoder. -/
def claim_pair_decode_framed : Nat → List Nat → Option (List Nat × List Nat) :=
  decode_framed_with claim_pair_decode_bit

/-! Helper lemmas -/

theorem foldl_append_flatMap {β : Type} (f : β → List Nat) :
    ∀ (l : List β) (init : List Nat),
      l.foldl (fun output b => output ++ f b) init = init ++ l.flatMap f := by
  intro l
  induction l with
  | nil => intro init; simp
  | cons a t ih => intro init; simp [List.foldl_cons, ih, List.flatMap_cons]

theorem flatMap_const_eq {β : Type} (x : List Nat) :
    ∀ l : List β, l.flatMap (fun _ => x) = (List.replicate l.length x).flatten := by
  intro l
  induction l with
  | nil => simp
  | cons a t ih => simp [List.flatMap_cons, ih, List.replicate_succ]

theorem flatten_replicate_pair (a : Nat) :
    ∀ n : Nat, (List.replicate n [a, a]).flatten = List.replicate (2 * n) a := by
  intro n
  induction n with
  | zero => simp
  | succ n ih =>
    rw [List.replicate_succ, List.flatten_cons, ih,
      show 2 * (n + 1) = 2 + 2 * n by ring, List.replicate_add]
    rfl

theorem tape_end_of_byte_eq :
    tape_end_of_byte = [833, 833, 833, 833, 833, 833, 833, 833, 1666, 1666] := rfl

theorem tape_payload_end_of_byte_eq : tape_payload_end_of_byte = tape_end_of_byte := rfl

theorem k7_tape_write_eq (k7_data : List Nat) :
    k7_tape_write k7_data =
      [17400]
        ++ (List.replicate 30000 tape_short_impulse).flatten
        ++ tape_end_of_byte
        ++ ((k7_data.take 32).flatMap fun b => tape_byte_pulses 8 b ++ tape_end_of_byte)
        ++ (List.replicate 7200 tape_short_impulse).flatten
        ++ tape_end_of_byte
        ++ ((k7_data.drop 32).flatMap fun b => tape_byte_pulses 8 b ++ tape_payload_end_of_byte) := by
  simp only [k7_tape_write, foldl_append_flatMap, flatMap_const_eq, List.length_range,
    List.append_assoc]

theorem tape_byte_pulses_eq_testBit :
    ∀ (k b : Nat),
      tape_byte_pulses k b
        = (List.range k).flatMap
            fun j => if b.testBit j then [833, 833, 833, 833] else [1666, 1666] := by
  intro k
  induction k with
  | zero => intro b; simp [tape_byte_pulses]
  | succ k ih =>
    intro b
    rw [tape_byte_pulses, ih, List.range_succ_eq_map, List.flatMap_cons, List.flatMap_map]
    have h2 : (fun j => if (b >>> 1).testBit j then ([833, 833, 833, 833] : List Nat)
          else [1666, 1666])
        = (fun j => if b.testBit j.succ then ([833, 833, 833, 833] : List Nat)
          else [1666, 1666]) := by
      funext j
      rw [Nat.shiftRight_one, ← Nat.testBit_succ]
    rw [h2]
    congr 1
    have hmod : b &&& 1 = b % 2 := Nat.and_one_is_mod b
    by_cases hb : b.testBit 0
    · rw [if_pos hb]
      rw [Nat.testBit_zero, decide_eq_true_eq] at hb
      rw [if_pos (by omega : b &&& 1 ≠ 0)]
      rfl
    · rw [if_neg hb]
      rw [Nat.testBit_zero, decide_eq_true_eq] at hb
      have hb2 : b % 2 = 0 := by omega
      rw [if_neg (by omega : ¬ b &&& 1 ≠ 0)]
      rfl

theorem tape_byte_pulses_length_le (k b : Nat) : (tape_byte_pulses k b).length ≤ 4 * k := by
  induction k generalizing b with
  | zero => simp [tape_byte_pulses]
  | succ k ih =>
    have := ih (b >>> 1)
    rw [tape_byte_pulses, List.length_append]
    split <;> simp [tape_short_impulse, tape_long_impulse] <;> omega

theorem tape_byte_pulses_length_even (k b : Nat) : (tape_byte_pulses k b).length % 2 = 0 := by
  induction k generalizing b with
  | zero => simp [tape_byte_pulses]
  | succ k ih =>
    have := ih (b >>> 1)
    rw [tape_byte_pulses, List.length_append]
    split <;> simp [tape_short_impulse, tape_long_impulse] <;> omega

theorem k7_tape_write_length (k7_data : List Nat) :
    (k7_tape_write k7_data).length
      = 74421 + (k7_data.map fun b => (tape_byte_pulses 8 b).length + 10).sum := by
  rw [k7_tape_write_eq, tape_payload_end_of_byte_eq]
  have he : tape_end_of_byte.length = 10 := rfl
  have hsi : tape_short_impulse.length = 2 := rfl
  have h1 : ([17400] : List Nat).length = 1 := rfl
  simp only [List.length_append, List.length_flatten, List.length_flatMap, List.map_replicate,
    List.sum_replicate, Function.comp_def, he, hsi, h1, smul_eq_mul, List.map_take,
    List.map_drop]
  have hs := List.sum_take_add_sum_drop
    (k7_data.map fun b => (tape_byte_pulses 8 b).length + (10 : Nat)) 32
  omega

theorem sum_byte_frames_even (l : List Nat) :
    (l.map fun b => (tape_byte_pulses 8 b).length + 10).sum % 2 = 0 := by
  induction l with
  | nil => simp
  | cons a t ih =>
    have := tape_byte_pulses_length_even 8 a
    simp only [List.map_cons, List.sum_cons]
    omega

theorem sum_byte_frames_le (l : List Nat) :
    (l.map fun b => (tape_byte_pulses 8 b).length + 10).sum ≤ l.length * 42 := by
  have h := List.sum_le_card_nsmul (l.map fun b => (tape_byte_pulses 8 b).length + 10) 42 ?_
  · simpa [smul_eq_mul] using h
  · intro x hx
    simp only [List.mem_map] at hx
    obtain ⟨b, _, rfl⟩ := hx
    have := tape_byte_pulses_length_le 8 b
    omega

theorem sum_replicate_nat (n a : Nat) : (List.replicate n a).sum = n * a := by
  induction n with
  | zero => simp
  | succ n ih =>
    rw [List.replicate_succ, List.sum_cons, ih, Nat.succ_mul]
    omega

theorem flatMap_replicate {β : Type} (n a : Nat) (f : Nat → List β) :
    (List.replicate n a).flatMap f = (List.replicate n (f a)).flatten := by
  induction n with
  | zero => simp
  | succ n ih => simp [List.replicate_succ, List.flatMap_cons, ih]

theorem tape_byte_pulses_zero : tape_byte_pulses 8 0 = List.replicate 16 1666 := rfl

theorem tape_byte_pulses_255_length : (tape_byte_pulses 8 255).length = 32 := rfl

theorem spec_pulse_train_eq_write (data : List Nat) :
    spec_pulse_train data = k7_tape_write data := by
  rw [k7_tape_write_eq, tape_payload_end_of_byte_eq]
  have he : spec_end_of_byte = tape_end_of_byte := rfl
  have hsi : tape_short_impulse = [833, 833] := rfl
  have hser : ∀ b : Nat, spec_byte_serialization b = tape_byte_pulses 8 b := by
    intro b
    rw [spec_byte_serialization, tape_byte_pulses_eq_testBit]
  simp only [spec_pulse_train, he, hser, hsi, ← List.flatMap_def, List.append_assoc]

set_option maxRecDepth 8000 in
theorem k7_tape_write_drop (k7_data : List Nat) :
    (k7_tape_write k7_data).drop 60011
      = ((k7_data.take 32).flatMap fun b => tape_byte_pulses 8 b ++ tape_end_of_byte)
        ++ ((List.replicate 7200 tape_short_impulse).flatten
          ++ (tape_end_of_byte
            ++ ((k7_data.drop 32).flatMap fun b =>
                  tape_byte_pulses 8 b ++ tape_payload_end_of_byte))) := by
  have hsplit : k7_tape_write k7_data
      = ([17400] ++ ((List.replicate 30000 tape_short_impulse).flatten ++ tape_end_of_byte))
        ++ (((k7_data.take 32).flatMap fun b => tape_byte_pulses 8 b ++ tape_end_of_byte)
          ++ ((List.replicate 7200 tape_short_impulse).flatten
            ++ (tape_end_of_byte
              ++ ((k7_data.drop 32).flatMap fun b =>
                    tape_byte_pulses 8 b ++ tape_payload_end_of_byte)))) := by
    rw [k7_tape_write_eq]
    simp only [List.append_assoc]
  rw [hsplit]
  refine List.drop_left' ?_
  have hsi : tape_short_impulse.length = 2 := rfl
  have he : tape_end_of_byte.length = 10 := rfl
  have h1 : ([17400] : List Nat).length = 1 := rfl
  simp only [List.length_append, List.length_flatten, List.map_replicate, List.sum_replicate,
    hsi, he, h1, smul_eq_mul]

set_option maxRecDepth 4000 in
theorem decode_bits_tape_byte_pulses :
    ∀ (k b : Nat) (rest : List Nat),
      decode_bits_with decode_bit k (tape_byte_pulses k b ++ rest)
        = some (tape_bits_val k b, rest) := by
  intro k
  induction k with
  | zero => intro b rest; simp [tape_byte_pulses, tape_bits_val, decode_bits_with]
  | succ k ih =>
    intro b rest
    rw [tape_byte_pulses, tape_bits_val]
    by_cases hb : b &&& 1 ≠ 0
    · rw [if_pos hb, if_pos hb]
      show decode_bits_with decode_bit (k + 1)
          (833 :: 833 :: 833 :: 833 :: (tape_byte_pulses k (b >>> 1) ++ rest))
        = some (1 + 2 * tape_bits_val k (b >>> 1), rest)
      simp only [decode_bits_with, decode_bit, ih]
    · rw [if_neg hb, if_neg hb]
      show decode_bits_with decode_bit (k + 1)
          (1666 :: 1666 :: (tape_byte_pulses k (b >>> 1) ++ rest))
        = some (0 + 2 * tape_bits_val k (b >>> 1), rest)
      simp only [decode_bits_with, decode_bit, ih]

theorem tape_bits_val_lt_256 : ∀ b : Nat, b < 256 → tape_bits_val 8 b = b := by decide

theorem skip_end_marker_eob (rest : List Nat) :
    skip_end_marker (tape_end_of_byte ++ rest) = some rest := rfl

theorem decode_framed_frames :
    ∀ (bs : List Nat) (rest : List Nat), (∀ b ∈ bs, b < 256) →
      decode_framed bs.length
          ((bs.flatMap fun b => tape_byte_pulses 8 b ++ tape_end_of_byte) ++ rest)
        = some (bs, rest) := by
  intro bs
  induction bs with
  | nil => intro rest _; simp [decode_framed, decode_framed_with]
  | cons a t ih =>
    intro rest h
    have ha : a < 256 := h a (List.mem_cons_self a t)
    have ht : ∀ b ∈ t, b < 256 := fun b hb => h b (List.mem_cons_of_mem a hb)
    have hs : ((a :: t).flatMap fun b => tape_byte_pulses 8 b ++ tape_end_of_byte) ++ rest
        = tape_byte_pulses 8 a ++ (tape_end_of_byte
            ++ ((t.flatMap fun b => tape_byte_pulses 8 b ++ tape_end_of_byte) ++ rest)) := by
      simp [List.flatMap_cons, List.append_assoc]
    rw [List.length_cons, hs, decode_framed, decode_framed_with,
      decode_bits_tape_byte_pulses 8 a, tape_bits_val_lt_256 a ha]
    have hrec := ih rest ht
    rw [decode_framed] at hrec
    simp [skip_end_marker_eob, hrec]

theorem k7_to_tape_buffer_eq {α : Type} (sys : α) (k7_data : List Nat)
    (tape_buffer : chips_range_t) (h : ¬ (k7_data.length < 32)) :
    k7_to_tape_buffer sys k7_data tape_buffer
      = (true, { ptr := k7_tape_write k7_data,
                 size := (k7_tape_write k7_data).length * 2 }) := by
  rw [k7_to_tape_buffer, if_neg h]

theorem pair_fst (X : chips_range_t) : ((true, X) : Bool × chips_range_t).1 = true := rfl

theorem pair_ptr (P : List Nat) (S : Nat) :
    (((true, ⟨P, S⟩) : Bool × chips_range_t)).2.ptr = P := rfl

theorem pair_size (P : List Nat) (S : Nat) :
    (((true, ⟨P, S⟩) : Bool × chips_range_t)).2.size = S := rfl

theorem tape_byte_pulses_zero_length : (tape_byte_pulses 8 0).length = 16 := rfl

theorem claim_pair_first_frame_fails (X : List Nat) :
    claim_pair_decode_framed 32 ((tape_byte_pulses 8 1 ++ tape_end_of_byte) ++ X) = none := rfl

/-! Claim theorems -/

/-- Claim C1: for every input of at least 32 bytes, k7_to_tape_buffer
succeeds, the pulse train written is exactly the leading 17400, 30000 short
impulses, an end-of-byte marker, each of the first 32 bytes serialized (8
bits, least-significant first) followed by an end-of-byte marker, 7200 short
impulses, an end-of-byte marker, and each byte from index 32 onward
serialized followed by an end-of-byte marker; the reported output size in
bytes is exactly twice the number of duration values written. -/
theorem C1_pulse_train_shape {α : Type} (sys : α) (k7_data : List Nat)
    (tape_buffer : chips_range_t) (h : 32 ≤ k7_data.length) :
    (k7_to_tape_buffer sys k7_data tape_buffer).1 = true
      ∧ (k7_to_tape_buffer sys k7_data tape_buffer).2.ptr = spec_pulse_train k7_data
      ∧ (k7_to_tape_buffer sys k7_data tape_buffer).2.size
          = 2 * (k7_to_tape_buffer sys k7_data tape_buffer).2.ptr.length := by
  have he := k7_to_tape_buffer_eq sys k7_data tape_buffer (by omega)
  refine ⟨by rw [he, pair_fst], ?_, ?_⟩
  · rw [he, pair_ptr]
    exact (spec_pulse_train_eq_write k7_data).symm
  · rw [he, pair_size, pair_ptr]
    omega

/-- Witness for C1 at the concrete input 0, 1, ..., 31. -/
theorem C1_pulse_train_shape_witness :
    32 ≤ (List.range 32).length
      ∧ ((k7_to_tape_buffer 0 (List.range 32) ⟨[], 0⟩).1 = true
        ∧ (k7_to_tape_buffer 0 (List.range 32) ⟨[], 0⟩).2.ptr
            = spec_pulse_train (List.range 32)
        ∧ (k7_to_tape_buffer 0 (List.range 32) ⟨[], 0⟩).2.size
            = 2 * (k7_to_tape_buffer 0 (List.range 32) ⟨[], 0⟩).2.ptr.length) :=
  ⟨by decide, C1_pulse_train_shape 0 (List.range 32) ⟨[], 0⟩ (by decide)⟩

/-- Claim C2 as stated is false: at the input of 562790 bytes all 255 the
encoder succeeds but reports 47423202 output bytes, which is not below
(562790 + 30000) * 40 * 2 = 47423200. -/
theorem C2_counterexample :
    ¬ ((k7_to_tape_buffer 0 (List.replicate 562790 255) ⟨[], 0⟩).1 = true
        ∧ (k7_to_tape_buffer 0 (List.replicate 562790 255) ⟨[], 0⟩).2.size
            < ((List.replicate 562790 (255 : Nat)).length + 30000) * 40 * 2) := by
  have hsz : (k7_to_tape_buffer 0 (List.replicate 562790 255) ⟨[], 0⟩).2.size
      = 47423202 := by
    rw [k7_to_tape_buffer_eq 0 _ _ (by rw [List.length_replicate]; omega), pair_size,
      k7_tape_write_length, List.map_replicate, sum_replicate_nat]
    show (74421 + 562790 * ((tape_byte_pulses 8 255).length + 10)) * 2 = 47423202
    rw [tape_byte_pulses_255_length]
  have hlenr : (List.replicate 562790 (255 : Nat)).length = 562790 := by
    rw [List.length_replicate]
  rintro ⟨-, hsize⟩
  omega

/-- Claim C2 amended: for every input with length between 32 and 562789 the
encoder returns success and the reported output byte-length is strictly
below (input_size + 30000) * 40 * 2. -/
theorem C2_size_below_formula {α : Type} (sys : α) (k7_data : List Nat)
    (tape_buffer : chips_range_t) (h : 32 ≤ k7_data.length)
    (hmax : k7_data.length ≤ 562789) :
    (k7_to_tape_buffer sys k7_data tape_buffer).1 = true
      ∧ (k7_to_tape_buffer sys k7_data tape_buffer).2.size
          < (k7_data.length + 30000) * 40 * 2 := by
  have he := k7_to_tape_buffer_eq sys k7_data tape_buffer (by omega)
  have hlen := k7_tape_write_length k7_data
  have hle := sum_byte_frames_le k7_data
  refine ⟨by rw [he, pair_fst], ?_⟩
  rw [he, pair_size]
  omega

/-- Witness for the amended C2 at the concrete input 0, 1, ..., 31. -/
theorem C2_size_below_formula_witness :
    32 ≤ (List.range 32).length ∧ (List.range 32).length ≤ 562789
      ∧ ((k7_to_tape_buffer 0 (List.range 32) ⟨[], 0⟩).1 = true
        ∧ (k7_to_tape_buffer 0 (List.range 32) ⟨[], 0⟩).2.size
            < ((List.range 32).length + 30000) * 40 * 2) :=
  ⟨by decide, by decide,
    C2_size_below_formula 0 (List.range 32) ⟨[], 0⟩ (by decide) (by decide)⟩

/-- Claim C3, capacity bug in the code: at the input of 23890 bytes all 255
the encoder writes 1077801 duration values, i.e. 1077801 * 2 = 2155602
bytes, while tape_buffer.size as passed to malloc is
(23890 + 30000) * 40 = 2155600 bytes (1077800 sixteen-bit slots), so the
last duration value is written one slot past the allocated buffer. -/
theorem C3_capacity_overflow :
    (k7_tape_write (List.replicate 23890 255)).length = 1077801
      ∧ k7_alloc_size (List.replicate 23890 (255 : Nat)).length = 2155600
      ∧ k7_alloc_size (List.replicate 23890 (255 : Nat)).length
          < (k7_tape_write (List.replicate 23890 255)).length * 2 := by
  have hlen : (k7_tape_write (List.replicate 23890 255)).length = 1077801 := by
    rw [k7_tape_write_length, List.map_replicate, sum_replicate_nat]
    show 74421 + 23890 * ((tape_byte_pulses 8 255).length + 10) = 1077801
    rw [tape_byte_pulses_255_length]
  have halloc : k7_alloc_size (List.replicate 23890 (255 : Nat)).length = 2155600 := by
    rw [List.length_replicate]
    show (23890 + 30000) * 40 = 2155600
    norm_num
  exact ⟨hlen, halloc, by omega⟩

/-- Claim C4: the 8 bits of a byte are emitted least-significant bit first;
a 1 bit yields four values 833 and a 0 bit two values 1666. -/
theorem C4_bit_serialization (b : Nat) (h : b < 256) :
    tape_byte_pulses 8 b
      = (List.range 8).flatMap
          fun j => if b.testBit j then [833, 833, 833, 833] else [1666, 1666] :=
  tape_byte_pulses_eq_testBit 8 b

/-- Witness for C4 at the concrete byte 165 (bit pattern 10100101). -/
theorem C4_bit_serialization_witness :
    (165 : Nat) < 256
      ∧ tape_byte_pulses 8 165
          = (List.range 8).flatMap
              fun j => if (165 : Nat).testBit j then [833, 833, 833, 833] else [1666, 1666] :=
  ⟨by decide, C4_bit_serialization 165 (by decide)⟩

/-- Claim C5: the shared tape_end_of_byte helper (convention A) and the
inline payload end-of-byte path (convention B) write identical output: ten
duration values, eight values 833 followed by two values 1666. -/
theorem C5_eob_conventions_identical :
    tape_end_of_byte = tape_payload_end_of_byte
      ∧ tape_end_of_byte = [833, 833, 833, 833, 833, 833, 833, 833, 1666, 1666]
      ∧ tape_end_of_byte.length = 10 :=
  ⟨rfl, rfl, rfl⟩

/-- Claim C6: for every input shorter than 32 bytes, k7_to_tape_buffer
returns false and hands back the caller's output range unmodified (the
early return happens before the allocation at line 293). -/
theorem C6_short_input_fails {α : Type} (sys : α) (k7_data : List Nat)
    (tape_buffer : chips_range_t) (h : k7_data.length < 32) :
    k7_to_tape_buffer sys k7_data tape_buffer = (false, tape_buffer) := by
  rw [k7_to_tape_buffer, if_pos h]

/-- Witness for C6 at the concrete three-byte input. -/
theorem C6_short_input_fails_witness :
    ([1, 2, 3] : List Nat).length < 32
      ∧ k7_to_tape_buffer 0 [1, 2, 3] ⟨[4], 7⟩ = (false, ⟨[4], 7⟩) :=
  ⟨by decide, C6_short_input_fails 0 [1, 2, 3] ⟨[4], 7⟩ (by decide)⟩

/-- Claim C7 as stated is false: with a pair of 833 values taken as bit 1
(instead of the four 833 values a 1 bit actually occupies), decoding the
header region of the pulse train for the input whose first byte is 1
mis-parses the first framed byte and fails, so it does not reproduce the
header. -/
theorem C7_pair_decode_counterexample :
    ¬ (Option.map Prod.fst
          (claim_pair_decode_framed 32
            (((k7_to_tape_buffer 0 (1 :: List.replicate 31 0) ⟨[], 0⟩).2.ptr).drop 60011))
        = some ((1 :: List.replicate 31 0).take 32)) := by
  have hnone : Option.map Prod.fst
        (claim_pair_decode_framed 32
          (((k7_to_tape_buffer 0 (1 :: List.replicate 31 0) ⟨[], 0⟩).2.ptr).drop 60011))
      = none := by
    rw [k7_to_tape_buffer_eq 0 _ _
        (by simp only [List.length_cons, List.length_replicate]; omega),
      pair_ptr, k7_tape_write_drop]
    have htake : (1 :: List.replicate 31 (0 : Nat)).take 32 = 1 :: List.replicate 31 0 := rfl
    rw [htake]
    show Option.map Prod.fst
        (claim_pair_decode_framed 32
          ((tape_byte_pulses 8 1 ++ tape_end_of_byte)
            ++ (((List.replicate 31 0).flatMap fun b =>
                  tape_byte_pulses 8 b ++ tape_end_of_byte)
              ++ ((List.replicate 7200 tape_short_impulse).flatten
                ++ (tape_end_of_byte
                  ++ (((1 :: List.replicate 31 0).drop 32).flatMap fun b =>
                        tape_byte_pulses 8 b ++ tape_payload_end_of_byte))))))
      = none
    rw [claim_pair_first_frame_fails]
    rfl
  intro hres
  exact Option.noConfusion (hnone.symm.trans hres)

/-- Claim C7 amended: reading each framed header byte with a run of four
833 values taken as bit 1 and a pair of 1666 values taken as bit 0,
least-significant bit first, skipping end-of-byte markers, reproduces the
original first 32 input bytes exactly. -/
theorem C7_header_round_trip {α : Type} (sys : α) (k7_data : List Nat)
    (tape_buffer : chips_range_t) (h : 32 ≤ k7_data.length)
    (hb : ∀ b ∈ k7_data.take 32, b < 256) :
    Option.map Prod.fst
        (decode_framed 32 (((k7_to_tape_buffer sys k7_data tape_buffer).2.ptr).drop 60011))
      = some (k7_data.take 32) := by
  rw [k7_to_tape_buffer_eq sys k7_data tape_buffer (by omega), pair_ptr, k7_tape_write_drop]
  have h32 : (k7_data.take 32).length = 32 := by
    rw [List.length_take]
    omega
  have happ := decode_framed_frames (k7_data.take 32)
    ((List.replicate 7200 tape_short_impulse).flatten
      ++ (tape_end_of_byte
        ++ ((k7_data.drop 32).flatMap fun b =>
              tape_byte_pulses 8 b ++ tape_payload_end_of_byte))) hb
  rw [h32] at happ
  rw [happ]
  rfl

/-- Witness for the amended C7 at the concrete input 0, 1, ..., 31. -/
theorem C7_header_round_trip_witness :
    32 ≤ (List.range 32).length
      ∧ (∀ b ∈ (List.range 32).take 32, b < 256)
      ∧ Option.map Prod.fst
            (decode_framed 32
              (((k7_to_tape_buffer 0 (List.range 32) ⟨[], 0⟩).2.ptr).drop 60011))
          = some ((List.range 32).take 32) :=
  ⟨by decide, by decide,
    C7_header_round_trip 0 (List.range 32) ⟨[], 0⟩ (by decide) (by decide)⟩

/-- Claim C8: for the input of exactly 32 zero bytes the encoder succeeds,
writes exactly 75253 duration values (the leading 17400, 60000 values 833,
10 end-of-byte values, 832 values for the 32 framed zero bytes, 14400
values 833 and 10 end-of-byte values) and reports 150506 output bytes. -/
theorem C8_all_zero_scenario :
    (k7_to_tape_buffer 0 (List.replicate 32 0) ⟨[], 0⟩).1 = true
      ∧ (k7_to_tape_buffer 0 (List.replicate 32 0) ⟨[], 0⟩).2.ptr.length = 75253
      ∧ (k7_to_tape_buffer 0 (List.replicate 32 0) ⟨[], 0⟩).2.size = 150506
      ∧ (k7_to_tape_buffer 0 (List.replicate 32 0) ⟨[], 0⟩).2.ptr
          = [17400] ++ (List.replicate 60000 833 ++ (tape_end_of_byte
            ++ ((List.replicate 32 (List.replicate 16 1666 ++ tape_end_of_byte)).flatten
              ++ (List.replicate 14400 833 ++ tape_end_of_byte)))) := by
  have he := k7_to_tape_buffer_eq 0 (List.replicate 32 0) ⟨[], 0⟩
    (by rw [List.length_replicate]; omega)
  have hlen : (k7_tape_write (List.replicate 32 0)).length = 75253 := by
    rw [k7_tape_write_length, List.map_replicate, sum_replicate_nat]
    show 74421 + 32 * ((tape_byte_pulses 8 0).length + 10) = 75253
    rw [tape_byte_pulses_zero_length]
  have hptr : k7_tape_write (List.replicate 32 0)
      = [17400] ++ (List.replicate 60000 833 ++ (tape_end_of_byte
        ++ ((List.replicate 32 (List.replicate 16 1666 ++ tape_end_of_byte)).flatten
          ++ (List.replicate 14400 833 ++ tape_end_of_byte)))) := by
    rw [k7_tape_write_eq, tape_payload_end_of_byte_eq]
    have htake : (List.replicate 32 (0 : Nat)).take 32 = List.replicate 32 0 := by simp
    have hdrop : (List.replicate 32 (0 : Nat)).drop 32 = [] := by simp
    have hsi : tape_short_impulse = [833, 833] := rfl
    rw [htake, hdrop, flatMap_replicate, tape_byte_pulses_zero, hsi,
      flatten_replicate_pair, flatten_replicate_pair]
    simp only [List.flatMap_nil, List.append_nil, List.append_assoc, Nat.reduceMul]
  exact ⟨by rw [he, pair_fst], by rw [he, pair_ptr, hlen], by rw [he, pair_size, hlen],
    by rw [he, pair_ptr, hptr]⟩

/-- Claim C9: the encoder output is a deterministic function of the input
bytes alone; two calls with identical input data and different system-state
arguments return identical results. -/
theorem C9_sys_independent {α : Type} (sys1 sys2 : α) (k7_data : List Nat)
    (tape_buffer : chips_range_t) (h : sys1 ≠ sys2) :
    k7_to_tape_buffer sys1 k7_data tape_buffer
      = k7_to_tape_buffer sys2 k7_data tape_buffer := rfl

/-- Witness for C9 with the two distinct system states true and false. -/
theorem C9_sys_independent_witness :
    (true ≠ false)
      ∧ k7_to_tape_buffer true [1, 2, 3] ⟨[], 0⟩ = k7_to_tape_buffer false [1, 2, 3] ⟨[], 0⟩ :=
  ⟨by decide, C9_sys_independent true false [1, 2, 3] ⟨[], 0⟩ (by decide)⟩

/-- Claim C10: for every successful encoding the number of duration values
written is odd (one leading value plus even-sized contributions), so the
reported byte size is congruent to 2 modulo 4. -/
theorem C10_odd_value_count {α : Type} (sys : α) (k7_data : List Nat)
    (tape_buffer : chips_range_t) (h : 32 ≤ k7_data.length) :
    Odd (k7_to_tape_buffer sys k7_data tape_buffer).2.ptr.length
      ∧ (k7_to_tape_buffer sys k7_data tape_buffer).2.size % 4 = 2 := by
  have he := k7_to_tape_buffer_eq sys k7_data tape_buffer (by omega)
  have hlen := k7_tape_write_length k7_data
  have heven := sum_byte_frames_even k7_data
  constructor
  · rw [he, pair_ptr, Nat.odd_iff]
    omega
  · rw [he, pair_size]
    omega

/-- Witness for C10 at the concrete input 0, 1, ..., 31. -/
theorem C10_odd_value_count_witness :
    32 ≤ (List.range 32).length
      ∧ (Odd (k7_to_tape_buffer 0 (List.range 32) ⟨[], 0⟩).2.ptr.length
        ∧ (k7_to_tape_buffer 0 (List.range 32) ⟨[], 0⟩).2.size % 4 = 2) :=
  ⟨by decide, C10_odd_value_count 0 (List.range 32) ⟨[], 0⟩ (by decide)⟩

end VG5000
